import Mathlib

/-!
# Verification of the httpSwagger request dispatcher (src/swagger.go)

A shallow embedding of the `Handler` closure from `swagger.go` and proofs of
the specification claims about it.  Strings are modelled as `List Char`
(Go strings over the request URIs at hand are sequences of runes).

External collaborators (the template renderer `html/template`, the document
registry `swag.ReadDoc`, the static-asset server) are parameters of the
model, as the spec declares them out of scope; the dispatcher's own logic is
translated line by line from the source.
-/

namespace HttpSwagger

/-- Abbreviation: characters of a Lean string literal. -/
def chars (s : String) : List Char := s.toList

/-! ## The path-extraction regular expression

`swagger.go` line 151 compiles `^(.*/)([^?].*)?[?|.]*$` and calls
`re.FindStringSubmatch(r.RequestURI)` (line 160).  Go's `regexp` (RE2)
produces, for an anchored pattern, the submatches a leftmost-first
(Perl-style) backtracking search would find.  For this pattern that search
is: try split points between group 1 and the remainder from the right end
of the string leftwards (the `.*` inside `(.*/)` is greedy); a split point
is viable when

  * the candidate group-1 text ends in `/` and its part before that final
    slash contains no newline (`.` does not match `\n`), and
  * the remainder `rest` is matched by `([^?].*)?[?|.]*$`, i.e. `rest` is
    empty, or its head is not `?` and its tail contains no newline
    (group 2 then greedily captures all of `rest`), or `rest` consists
    solely of characters in the class `{?, |, .}` (group 2 then does not
    participate and is reported as the empty string).

`auxFind` walks the reversed string carrying the remainder in original
order; the first viable split found is the leftmost-first match.  No split
viable (in particular: no `/` in the URI) models `FindStringSubmatch`
returning nil.
-/

/-- A character of the trailing class `[?|.]`. -/
def classChar (c : Char) : Bool := c = '?' || c = '|' || c = '.'

/-- No newline among the characters (Go's `.` does not match `\n`). -/
def noNL (l : List Char) : Bool := l.all (fun c => !(c = '\n'))

/-- Can `([^?].*)?[?|.]*$` match exactly `rest`? -/
def restValid : List Char → Bool
  | [] => true
  | h :: t => (!(h = '?') && noNL t) || (h :: t).all classChar

/-- The text captured by group 2 when `([^?].*)?[?|.]*$` matches `rest`
(empty when the optional group does not participate, as Go reports it). -/
def group2 : List Char → List Char
  | [] => []
  | h :: t => if h = '?' then [] else h :: t

/-- Scan the reversed string for the rightmost viable split; `u` is the
not-yet-scanned reversed left part, `t` the remainder in original order. -/
def auxFind : List Char → List Char → Option (List Char × List Char)
  | [], _ => none
  | c :: u, t =>
    if c = '/' && noNL u && restValid t then some ((c :: u).reverse, group2 t)
    else auxFind u (c :: t)

/-- `reFind s` models `re.FindStringSubmatch(s)` for the pattern
`^(.*/)([^?].*)?[?|.]*$`: `some (matches[1], matches[2])` on a match,
`none` when `FindStringSubmatch` returns nil. -/
def reFind (s : List Char) : Option (List Char × List Char) :=
  auxFind s.reverse []

/-! ## `filepath.Ext` (swagger.go line 172)

Go's `filepath.Ext` scans the path from its end; it stops at a path
separator (`/` on this platform) and returns the suffix starting at the
first `.` found, or the empty string. -/

/-- Reversed scan for `filepath.Ext`; `acc` holds the characters already
passed, in original order. -/
def extGo : List Char → List Char → List Char
  | [], _ => []
  | c :: rest, acc =>
    if c = '/' then []
    else if c = '.' then c :: acc
    else extGo rest (c :: acc)

/-- Model of Go's `filepath.Ext`. -/
def filepathExt (p : List Char) : List Char := extGo p.reverse []

/-! ## Content-type table (swagger.go lines 172–183) -/

def textHTML : List Char := chars "text/html; charset=utf-8"
def textCSS : List Char := chars "text/css; charset=utf-8"
def appJS : List Char := chars "application/javascript"
def imagePNG : List Char := chars "image/png"
def appJSON : List Char := chars "application/json; charset=utf-8"
def textPlain : List Char := chars "text/plain; charset=utf-8"

/-- The `switch filepath.Ext(path)` that pre-sets the Content-Type header;
`none` models the header being left unset. -/
def contentTypeFor (ext : List Char) : Option (List Char) :=
  if ext = chars ".html" then some textHTML
  else if ext = chars ".css" then some textCSS
  else if ext = chars ".js" then some appJS
  else if ext = chars ".png" then some imagePNG
  else if ext = chars ".json" then some appJSON
  else none

/-! ## Helpers from `net/http` used by the handler -/

/-- Hex digit as Go's `strconv.AppendInt(b, n, 16)` produces (lowercase). -/
def hexDigit (n : Nat) : Char :=
  if n < 10 then Char.ofNat ('0'.toNat + n) else Char.ofNat ('a'.toNat + (n - 10))

/-- UTF-8 encoding of one character, bytes as `Nat`. -/
def utf8Bytes (c : Char) : List Nat :=
  let n := c.toNat
  if n < 0x80 then [n]
  else if n < 0x800 then [0xC0 + n / 64, 0x80 + n % 64]
  else if n < 0x10000 then [0xE0 + n / 4096, 0x80 + (n / 64) % 64, 0x80 + n % 64]
  else [0xF0 + n / 262144, 0x80 + (n / 4096) % 64, 0x80 + (n / 64) % 64, 0x80 + n % 64]

/-- One byte of the escaped form produced by `net/http`'s
`hexEscapeNonASCII`: bytes below `utf8.RuneSelf` pass through. -/
def escByte (b : Nat) : List Char :=
  ['%', hexDigit (b / 16), hexDigit (b % 16)]

/-- Model of `net/http.hexEscapeNonASCII`, applied by `http.Redirect` to the
Location header value: ASCII characters pass through, all other bytes are
percent-escaped in lowercase hex. -/
def hexEscapeNonASCII (s : List Char) : List Char :=
  (s.map (fun c => if c.toNat < 0x80 then [c] else ((utf8Bytes c).map escByte).flatten)).flatten

/-- Model of `net/http`'s `htmlEscape` (used for the redirect body):
`&`→`&amp;` `<`→`&lt;` `>`→`&gt;` `"`→`&#34;` apostrophe→`&#39;`. -/
def htmlEscapeChar (c : Char) : List Char :=
  if c = '&' then chars "&amp;"
  else if c = '<' then chars "&lt;"
  else if c = '>' then chars "&gt;"
  else if c = '"' then chars "&#34;"
  else if c = '\x27' then chars "&#39;"
  else [c]

/-- Model of `net/http.htmlEscape`. -/
def htmlEscape (s : List Char) : List Char := (s.map htmlEscapeChar).flatten

/-! ### The URL normalization inside `net/http.Redirect`

Before setting the Location header, `http.Redirect` parses its url and,
when the parse succeeds with neither a scheme nor a host, normalizes the
url string: it makes a non-rooted path absolute against the request path,
splits off the query at the first `?`, applies `path.Clean` and restores a
trailing slash the clean removed, then re-appends the query.  The models
below follow that code; `redirectNormalizes` is the guard under which the
normalization runs (see its docstring for the exact relation to
`url.Parse`). -/

/-- Split a path at every `/` (the separators are dropped; empty elements
between consecutive slashes are kept, as `strings.Split` would). -/
def splitSlash : List Char → List (List Char)
  | [] => [[]]
  | c :: t =>
    let r := splitSlash t
    if c = '/' then [] :: r
    else
      match r with
      | [] => [[c]]
      | h :: r2 => (c :: h) :: r2

/-- The element loop of `path.Clean`: drop empty and `.` elements, let `..`
pop the last retained element (for a rooted path a `..` at the top is
dropped; for a non-rooted path it is kept), keep everything else.  `acc` is
the retained elements in reverse. -/
def cleanParts (rooted : Bool) : List (List Char) → List (List Char) → List (List Char)
  | [], acc => acc.reverse
  | e :: rest, acc =>
    if e = [] ∨ e = ['.'] then cleanParts rooted rest acc
    else if e = ['.', '.'] then
      match acc with
      | [] => if rooted then cleanParts rooted rest [] else cleanParts rooted rest [e]
      | top :: acc2 =>
        if top = ['.', '.'] then cleanParts rooted rest (e :: acc)
        else cleanParts rooted rest acc2
    else cleanParts rooted rest (e :: acc)

/-- Join path elements with `/`. -/
def joinSlash : List (List Char) → List Char
  | [] => []
  | [e] => e
  | e :: rest => e ++ '/' :: joinSlash rest

/-- Model of Go's `path.Clean`: shortest lexical equivalent of the path —
no `.` or empty elements, `..` resolved (and dropped at the root), `.` for
an emptied relative path. -/
def pathClean (p : List Char) : List Char :=
  if p = [] then ['.']
  else
    let rooted := p.head? = some '/'
    let s := joinSlash (cleanParts rooted (splitSlash p) [])
    if rooted then '/' :: s
    else if s = [] then ['.'] else s

/-- A control byte in the sense of `net/url` (`b < ' ' || b == 0x7f`), on
which `url.Parse` fails. -/
def isCTL (c : Char) : Bool := c.toNat < 0x20 || c.toNat = 0x7f

/-- No control bytes in the string. -/
def noCTL (s : List Char) : Bool := s.all (fun c => !isCTL c)

/-- A hexadecimal digit as `url.Parse`'s `ishex` accepts. -/
def isHexDig (c : Char) : Bool :=
  ('0' ≤ c && c ≤ '9') || ('a' ≤ c && c ≤ 'f') || ('A' ≤ c && c ≤ 'F')

/-- Every `%` begins a valid two-hex-digit escape (`url.Parse` fails on a
malformed escape in path or fragment). -/
def validPct : List Char → Bool
  | [] => true
  | c :: t =>
    if c = '%' then
      match t with
      | a :: b :: t2 => isHexDig a && isHexDig b && validPct t2
      | _ => false
    else validPct t

/-- The guard under which the model applies `http.Redirect`'s
normalization: the url is rooted, so `url.Parse` finds no scheme, and it is
not protocol-relative — `//host/...` parses with a non-empty host and Go
skips the normalization, while a degenerate `///...` has an empty host and
is normalized — and it is free of control bytes and malformed percent
escapes, so `url.Parse` succeeds.  (The guard is conservative in corners
the dispatcher's urls — a latched prefix plus `index.html` — do not
exercise: an empty-authority form such as `//?x`, a userinfo-only
authority such as `//@/x`, or a malformed escape confined to the query,
which Go would still normalize; the model then leaves the url as given.) -/
def redirectNormalizes (url : List Char) : Bool :=
  url.head? = some '/' &&
    (!(List.take 2 url = chars "//") || List.take 3 url = chars "///") &&
    noCTL url && validPct url

/-- Split at the first `?`, the query keeping its `?`
(`strings.Index(url, "?")` in `http.Redirect`). -/
def splitQuery : List Char → List Char × List Char
  | [] => ([], [])
  | c :: t =>
    if c = '?' then ([], c :: t)
    else
      let r := splitQuery t
      (c :: r.1, r.2)

/-- The url string `http.Redirect` actually emits: for a guarded url, split
off the query, `path.Clean` the path part restoring a trailing slash the
clean removed, re-append the query; other urls (scheme or host present,
or unparseable) pass through unchanged. -/
def redirectMunge (url : List Char) : List Char :=
  if redirectNormalizes url then
    let uq := splitQuery url
    let trailing := uq.1.getLast? = some '/'
    let c := pathClean uq.1
    let c2 := if trailing && !(List.getLast? c = some '/') then c ++ ['/'] else c
    c2 ++ uq.2
  else url

/-! ## Requests, responses and dispatch results -/

/-- The observable fields of an inbound request used by the handler. -/
structure Request where
  method : List Char
  requestURI : List Char
  deriving DecidableEq, Repr

/-- The response headers and body the dispatcher itself writes.  Only the
headers the handler's code path sets are tracked. -/
structure HttpResponse where
  status : Nat
  contentType : Option (List Char)
  location : Option (List Char)
  body : List Char
  deriving DecidableEq, Repr

/-- Outcome of one invocation of the handler closure. -/
inductive DispatchResult where
  /-- `matches[2]` indexed a nil slice: the handler goroutine panics
  (index out of range) and no response is produced by this code. -/
  | panic : DispatchResult
  /-- A response fully produced by the dispatcher. -/
  | reply (resp : HttpResponse) : DispatchResult
  /-- The request was handed to the asset server (`config.Handler.ServeHTTP`)
  with the Content-Type header pre-set as recorded and the server's `Prefix`
  field holding the recorded value. -/
  | delegate (contentType : Option (List Char)) (assetPrefix : List Char)
      (req : Request) : DispatchResult
  deriving DecidableEq, Repr

/-- Model of `http.Error(w, msg, code)`: it sets the Content-Type header to
`text/plain; charset=utf-8` (replacing any earlier value) and writes the
message followed by a newline (`fmt.Fprintln`). -/
def httpError (msg : List Char) (code : Nat) : HttpResponse :=
  { status := code, contentType := some textPlain, location := none
    body := msg ++ ['\n'] }

/-- Body written by `http.Redirect` for a GET request without a pre-set
Content-Type: the string `"<a href=\"" + htmlEscape(url) + "\">" +
statusText + "</a>.\n"` — the literal ends in a newline of its own — written
with `fmt.Fprintln`, which appends a second newline. -/
def redirectBody (url : List Char) : List Char :=
  chars "<a href=\"" ++ htmlEscape url ++ chars "\">Moved Permanently</a>.\n"
    ++ ['\n']

/-- Model of `http.Redirect(w, r, url, code)` given the Content-Type header
state `ct` at the call: the url is first normalized (`redirectMunge`), the
Location header is its hex-escaped form; when no Content-Type was set and
the method is GET it sets `text/html` and writes an HTML body built from
the same normalized url, otherwise it writes no body. -/
def httpRedirect (r : Request) (ct : Option (List Char)) (url0 : List Char)
    (code : Nat) : HttpResponse :=
  let url := redirectMunge url0
  if ct.isSome then
    { status := code, contentType := ct
      location := some (hexEscapeNonASCII url), body := [] }
  else if r.method = chars "GET" then
    { status := code, contentType := some textHTML
      location := some (hexEscapeNonASCII url), body := redirectBody url }
  else
    { status := code, contentType := none
      location := some (hexEscapeNonASCII url), body := [] }

/-! ## Configuration and dispatcher state -/

/-- The value fields of `Config` (swagger.go lines 19–32).  The `Handler`
field is a pointer to a mutable `webdav.Handler`; it is modelled separately
in `State` so that its mutation can be tracked. -/
structure Config where
  URL : List Char
  DocExpansion : List Char
  DomID : List Char
  InstanceName : List Char
  BeforeScript : List Char
  AfterScript : List Char
  Plugins : List (List Char)
  UIConfig : List (List Char × List Char)
  DeepLinking : Bool
  PersistAuthorization : Bool
  deriving DecidableEq, Repr

/-- Which `webdav.Handler` object `config.Handler` points to: one supplied
through the `WebdavHandler` option, or the package-level default
`swaggerFiles.Handler` assigned lazily at line 165. -/
inductive AssetRef where
  | supplied : AssetRef
  | swaggerFiles : AssetRef
  deriving DecidableEq, Repr

/-- Mutable state of one `Handler()` closure: the config value fields, the
`config.Handler` pointer, the `Prefix` fields of the two possible handler
objects, and the `sync.Once` flag. -/
structure State where
  config : Config
  handler : Option AssetRef
  suppliedPrefix : List Char
  filesPrefix : List Char
  onceDone : Bool
  deriving DecidableEq, Repr

/-- The `Prefix` field of the handler object `st.config.Handler` currently
points to (meaningful once the pointer is non-nil). -/
def currentPrefix (st : State) : List Char :=
  match st.handler with
  | some AssetRef.supplied => st.suppliedPrefix
  | some AssetRef.swaggerFiles => st.filesPrefix
  | none => st.filesPrefix

/-- Write `p` into the `Prefix` field of the pointed-to handler object
(`config.Handler.Prefix = matches[1]`, line 169). -/
def setPrefix (st : State) (p : List Char) : State :=
  match st.handler with
  | some AssetRef.supplied => { st with suppliedPrefix := p }
  | some AssetRef.swaggerFiles => { st with filesPrefix := p }
  | none => st

/-- Lines 164–166: `if config.Handler == nil { config.Handler = swaggerFiles.Handler }`. -/
def ensureHandler (st : State) : State :=
  if st.handler = none then { st with handler := some AssetRef.swaggerFiles } else st

/-- Lines 168–170: `once.Do(func() { config.Handler.Prefix = matches[1] })`. -/
def doOnce (st : State) (p : List Char) : State :=
  if st.onceDone then st else { setPrefix st p with onceDone := true }

/-- swagger.go line 126 and the swag package default: `InstanceName` defaults
to `"swagger"` (= `swag.Name`). -/
def swagName : List Char := chars "swagger"

/-- The defaults of `newConfig` (lines 121–129). -/
def defaultConfigRecord : Config :=
  { URL := chars "doc.json", DocExpansion := chars "list"
    DomID := chars "swagger-ui", InstanceName := chars "swagger"
    BeforeScript := [], AfterScript := [], Plugins := [], UIConfig := []
    DeepLinking := true, PersistAuthorization := false }

/-- `newConfig` (lines 121–140): apply the option mutators in order over the
defaults, then fall back to `swag.Name` for an empty `InstanceName`. -/
def newConfig (fns : List (Config → Config)) : Config :=
  let c := fns.foldl (fun c f => f c) defaultConfigRecord
  if c.InstanceName = [] then { c with InstanceName := swagName } else c

/-- The state of a freshly constructed handler closure with config `c` and
`config.Handler` as given (nil unless the `WebdavHandler` option supplied
one whose `Prefix` starts as `sp`); the package-level default handler's
`Prefix` starts as `fp`; the `sync.Once` is unused. -/
def initState (c : Config) (h : Option AssetRef) (sp fp : List Char) : State :=
  { config := c, handler := h, suppliedPrefix := sp, filesPrefix := fp
    onceDone := false }

/-! ## The handler closure (swagger.go lines 153–202) -/

/-- The Content-Type switch and the dispatch `switch path` (lines 172–201),
run in the state obtained after the handler-assignment and the once-latch;
the switch only writes the response, never the state.  `render` models
`index.Execute` as a function of the config value fields (the parsed
template references only those, and no mutable field), `readDoc` models
`swag.ReadDoc`. -/
def dispatchOut (render : Config → List Char)
    (readDoc : List Char → Except (List Char) (List Char))
    (st : State) (r : Request) (path : List Char) : DispatchResult :=
  let ct := contentTypeFor (filepathExt path)
  if path = chars "index.html" then
    .reply { status := 200, contentType := ct, location := none
             body := render st.config }
  else if path = chars "doc.json" then
    match readDoc st.config.InstanceName with
    | .error _ => .reply (httpError (chars "Internal Server Error") 500)
    | .ok doc => .reply { status := 200, contentType := ct, location := none
                          body := doc }
  else if path = [] then
    .reply (httpRedirect r ct (currentPrefix st ++ chars "index.html") 301)
  else
    .delegate ct (currentPrefix st) r

/-- One invocation of the handler closure: the method guard (lines 154–158),
the regex match and the unchecked `matches[2]` (lines 160–162), the lazy
handler assignment (164–166), the once-latch (168–170), and the dispatch. -/
def step (render : Config → List Char)
    (readDoc : List Char → Except (List Char) (List Char))
    (st : State) (r : Request) : State × DispatchResult :=
  if r.method = chars "GET" then
    match reFind r.requestURI with
    | none => (st, .panic)
    | some (pre, path) =>
      let st1 := doOnce (ensureHandler st) pre
      (st1, dispatchOut render readDoc st1 r path)
  else
    (st, .reply (httpError (chars "Method not allowed") 405))

/-- A sequence of requests against one handler closure, collecting each
request's outcome in order. -/
def run (render : Config → List Char)
    (readDoc : List Char → Except (List Char) (List Char))
    (st : State) : List Request → State × List DispatchResult
  | [] => (st, [])
  | r :: rs =>
    let s1 := step render readDoc st r
    let rest := run render readDoc s1.1 rs
    (rest.1, s1.2 :: rest.2)

/-! ## Derived notions used by the claim statements -/

/-- A dispatch outcome depends on the latched prefix only through the value
`p`: a delegation hands the asset server over with its `Prefix` field equal
to `p`, and a reply either carries no Location header at all or exactly the
redirect writer's output for `p ++ "index.html"` (normalized and escaped as
`http.Redirect` does). -/
def observesPrefix (p : List Char) : DispatchResult → Prop
  | .panic => True
  | .reply resp =>
    resp.location = none ∨
      resp.location =
        some (hexEscapeNonASCII (redirectMunge (p ++ chars "index.html")))
  | .delegate _ pr _ => pr = p

/-- The prefix cell has been latched to `p`: the `sync.Once` has fired, the
handler pointer is non-nil, and the pointed-to handler's `Prefix` is `p`. -/
def Latched (p : List Char) (st : State) : Prop :=
  st.onceDone = true ∧ (∃ a, st.handler = some a) ∧ currentPrefix st = p

/-- The response body written by the dispatcher itself (none for a panic or
a delegation). -/
def bodyOf : DispatchResult → Option (List Char)
  | .reply resp => some resp.body
  | _ => none

/-- The Content-Type header state an outcome carries: the final header of a
reply, or the header pre-set for the asset server on delegation; none for a
panic. -/
def resultCT : DispatchResult → Option (Option (List Char))
  | .panic => none
  | .reply resp => some resp.contentType
  | .delegate ct _ _ => some ct

/-- The status code of a reply produced by the dispatcher itself. -/
def statusOf : DispatchResult → Option Nat
  | .reply resp => some resp.status
  | _ => none

/-- The Location header of a reply produced by the dispatcher itself. -/
def locationOf : DispatchResult → Option (Option (List Char))
  | .reply resp => some resp.location
  | _ => none

/-- A concrete template renderer for witnesses. -/
def render0 : Config → List Char := fun _ => chars "<html>"

/-- A concrete registry in which the fetch succeeds. -/
def readDoc0 : List Char → Except (List Char) (List Char) :=
  fun _ => Except.ok (chars "\x7b\"swagger\":\"2.0\"\x7d")

/-- A concrete registry in which the fetch fails. -/
def readDocErr : List Char → Except (List Char) (List Char) :=
  fun _ => Except.error (chars "record not found")

/-- The state of a handler closure built with `Handler()` (no options). -/
def freshState : State := initState (newConfig []) none [] []

/-! ## Structural lemmas -/

@[simp] lemma setPrefix_config (st : State) (p : List Char) :
    (setPrefix st p).config = st.config := by
  cases h : st.handler with
  | none => simp [setPrefix, h]
  | some a => cases a <;> simp [setPrefix, h]

@[simp] lemma setPrefix_handler (st : State) (p : List Char) :
    (setPrefix st p).handler = st.handler := by
  cases h : st.handler with
  | none => simp [setPrefix, h]
  | some a => cases a <;> simp [setPrefix, h]

@[simp] lemma setPrefix_onceDone (st : State) (p : List Char) :
    (setPrefix st p).onceDone = st.onceDone := by
  cases h : st.handler with
  | none => simp [setPrefix, h]
  | some a => cases a <;> simp [setPrefix, h]

lemma currentPrefix_setPrefix (st : State) (p : List Char) (a : AssetRef)
    (h : st.handler = some a) : currentPrefix (setPrefix st p) = p := by
  cases a <;> simp [setPrefix, currentPrefix, h]

@[simp] lemma ensureHandler_config (st : State) :
    (ensureHandler st).config = st.config := by
  by_cases h : st.handler = none <;> simp [ensureHandler, h]

@[simp] lemma ensureHandler_onceDone (st : State) :
    (ensureHandler st).onceDone = st.onceDone := by
  by_cases h : st.handler = none <;> simp [ensureHandler, h]

lemma ensureHandler_of_some (st : State) (h : st.handler ≠ none) :
    ensureHandler st = st := by
  simp [ensureHandler, h]

lemma ensureHandler_some (st : State) :
    ∃ a, (ensureHandler st).handler = some a := by
  cases h : st.handler with
  | none => exact ⟨AssetRef.swaggerFiles, by simp [ensureHandler, h]⟩
  | some a => exact ⟨a, by simp [ensureHandler, h]⟩

@[simp] lemma doOnce_config (st : State) (p : List Char) :
    (doOnce st p).config = st.config := by
  by_cases h : st.onceDone <;> simp [doOnce, h]

@[simp] lemma doOnce_handler (st : State) (p : List Char) :
    (doOnce st p).handler = st.handler := by
  by_cases h : st.onceDone <;> simp [doOnce, h]

lemma doOnce_done (st : State) (p : List Char) (h : st.onceDone = true) :
    doOnce st p = st := by
  simp [doOnce, h]

lemma doOnce_fresh (st : State) (p : List Char) (h : st.onceDone = false) :
    doOnce st p = { setPrefix st p with onceDone := true } := by
  simp [doOnce, h]

@[simp] lemma currentPrefix_mkOnce (st : State) (b : Bool) :
    currentPrefix { st with onceDone := b } = currentPrefix st := rfl

@[simp] lemma handler_mkOnce (st : State) (b : Bool) :
    (State.mk st.config st.handler st.suppliedPrefix st.filesPrefix b).handler
      = st.handler := rfl

lemma step_not_get (render : Config → List Char)
    (readDoc : List Char → Except (List Char) (List Char))
    (st : State) (r : Request) (h : ¬r.method = chars "GET") :
    step render readDoc st r =
      (st, .reply (httpError (chars "Method not allowed") 405)) := by
  simp [step, h]

lemma step_no_match (render : Config → List Char)
    (readDoc : List Char → Except (List Char) (List Char))
    (st : State) (r : Request) (hm : r.method = chars "GET")
    (hf : reFind r.requestURI = none) :
    step render readDoc st r = (st, .panic) := by
  simp [step, hm, hf]

lemma step_of_match (render : Config → List Char)
    (readDoc : List Char → Except (List Char) (List Char))
    (st : State) (r : Request) (pre path : List Char)
    (hm : r.method = chars "GET")
    (hf : reFind r.requestURI = some (pre, path)) :
    step render readDoc st r =
      (doOnce (ensureHandler st) pre,
       dispatchOut render readDoc (doOnce (ensureHandler st) pre) r path) := by
  simp [step, hm, hf]

lemma step_config (render : Config → List Char)
    (readDoc : List Char → Except (List Char) (List Char))
    (st : State) (r : Request) :
    (step render readDoc st r).1.config = st.config := by
  by_cases hm : r.method = chars "GET"
  · cases hf : reFind r.requestURI with
    | none => rw [step_no_match render readDoc st r hm hf]
    | some pr =>
      rw [step_of_match render readDoc st r pr.1 pr.2 hm (by rw [hf])]
      simp
  · rw [step_not_get render readDoc st r hm]

@[simp] lemma run_nil (render : Config → List Char)
    (readDoc : List Char → Except (List Char) (List Char)) (st : State) :
    run render readDoc st [] = (st, []) := rfl

lemma run_cons (render : Config → List Char)
    (readDoc : List Char → Except (List Char) (List Char))
    (st : State) (r : Request) (rs : List Request) :
    run render readDoc st (r :: rs) =
      ((run render readDoc (step render readDoc st r).1 rs).1,
       (step render readDoc st r).2 ::
         (run render readDoc (step render readDoc st r).1 rs).2) := rfl

lemma run_append (render : Config → List Char)
    (readDoc : List Char → Except (List Char) (List Char))
    (st : State) (as bs : List Request) :
    run render readDoc st (as ++ bs) =
      ((run render readDoc (run render readDoc st as).1 bs).1,
       (run render readDoc st as).2 ++
         (run render readDoc (run render readDoc st as).1 bs).2) := by
  induction as generalizing st with
  | nil => simp
  | cons a as ih => simp [run_cons, ih]

@[simp] lemma httpError_location (msg : List Char) (code : Nat) :
    (httpError msg code).location = none := rfl

@[simp] lemma httpRedirect_location (r : Request) (ct : Option (List Char))
    (url : List Char) (code : Nat) :
    (httpRedirect r ct url code).location =
      some (hexEscapeNonASCII (redirectMunge url)) := by
  rcases ct with _ | c
  · by_cases hg : r.method = chars "GET" <;> simp [httpRedirect, hg]
  · simp [httpRedirect]

lemma dispatchOut_observes (render : Config → List Char)
    (readDoc : List Char → Except (List Char) (List Char))
    (st : State) (r : Request) (path p : List Char)
    (h : currentPrefix st = p) :
    observesPrefix p (dispatchOut render readDoc st r path) := by
  have e1 : ¬(chars "doc.json" = chars "index.html") := by decide
  have e2 : ¬(chars "index.html" = ([] : List Char)) := by decide
  have e3 : ¬(chars "doc.json" = ([] : List Char)) := by decide
  by_cases h1 : path = chars "index.html"
  · simp [dispatchOut, h1, observesPrefix]
  by_cases h2 : path = chars "doc.json"
  · cases hd : readDoc st.config.InstanceName with
    | error e => simp [dispatchOut, h1, h2, hd, observesPrefix, e1]
    | ok d => simp [dispatchOut, h1, h2, hd, observesPrefix, e1]
  by_cases h3 : path = []
  · simp [dispatchOut, h1, h2, h3, observesPrefix, h, e2, e3]
  · simp [dispatchOut, h1, h2, h3, observesPrefix, h]

lemma observes_of_methodError (p : List Char) :
    observesPrefix p (.reply (httpError (chars "Method not allowed") 405)) := by
  simp [observesPrefix]

lemma step_latched (render : Config → List Char)
    (readDoc : List Char → Except (List Char) (List Char))
    (st : State) (r : Request) (p : List Char) (hL : Latched p st) :
    (step render readDoc st r).1 = st ∧
      observesPrefix p (step render readDoc st r).2 := by
  obtain ⟨h1, ⟨a, h2⟩, h3⟩ := hL
  by_cases hm : r.method = chars "GET"
  · cases hf : reFind r.requestURI with
    | none =>
      rw [step_no_match render readDoc st r hm hf]
      exact ⟨rfl, trivial⟩
    | some pr =>
      rw [step_of_match render readDoc st r pr.1 pr.2 hm (by rw [hf])]
      have he : ensureHandler st = st := ensureHandler_of_some st (by simp [h2])
      have hd : doOnce (ensureHandler st) pr.1 = st := by
        rw [he]; exact doOnce_done st pr.1 h1
      rw [hd]
      exact ⟨rfl, dispatchOut_observes render readDoc st r pr.2 p h3⟩
  · rw [step_not_get render readDoc st r hm]
    exact ⟨rfl, observes_of_methodError p⟩

lemma run_latched (render : Config → List Char)
    (readDoc : List Char → Except (List Char) (List Char))
    (st : State) (p : List Char) (hL : Latched p st) (qs : List Request) :
    (run render readDoc st qs).1 = st ∧
      ∀ res ∈ (run render readDoc st qs).2, observesPrefix p res := by
  induction qs with
  | nil => simp
  | cons q qs ih =>
    obtain ⟨hs, ho⟩ := step_latched render readDoc st q p hL
    rw [run_cons, hs]
    exact ⟨ih.1, by
      intro res hres
      rcases List.mem_cons.mp hres with h | h
      · exact h ▸ ho
      · exact ih.2 res h⟩

lemma step_fresh_latch (render : Config → List Char)
    (readDoc : List Char → Except (List Char) (List Char))
    (st : State) (r : Request) (pre path : List Char)
    (h0 : st.onceDone = false) (hm : r.method = chars "GET")
    (hf : reFind r.requestURI = some (pre, path)) :
    Latched pre (step render readDoc st r).1 ∧
      observesPrefix pre (step render readDoc st r).2 ∧
      (step render readDoc st r).1.config = st.config := by
  rw [step_of_match render readDoc st r pre path hm hf]
  obtain ⟨a, ha⟩ := ensureHandler_some st
  have hfr : (ensureHandler st).onceDone = false := by
    rw [ensureHandler_onceDone]; exact h0
  have hd : doOnce (ensureHandler st) pre =
      { setPrefix (ensureHandler st) pre with onceDone := true } :=
    doOnce_fresh (ensureHandler st) pre hfr
  have hcur : currentPrefix (doOnce (ensureHandler st) pre) = pre := by
    rw [hd, currentPrefix_mkOnce]
    exact currentPrefix_setPrefix (ensureHandler st) pre a ha
  have hLat : Latched pre (doOnce (ensureHandler st) pre) := by
    refine ⟨?_, ⟨a, ?_⟩, hcur⟩
    · rw [hd]
    · rw [doOnce_handler, ha]
  exact ⟨hLat, dispatchOut_observes render readDoc _ r path pre hcur, by simp⟩

lemma step_nonlatch (render : Config → List Char)
    (readDoc : List Char → Except (List Char) (List Char))
    (st : State) (r : Request)
    (h : ¬r.method = chars "GET" ∨ reFind r.requestURI = none) :
    (step render readDoc st r).1 = st ∧
      ∀ p, observesPrefix p (step render readDoc st r).2 := by
  by_cases hm : r.method = chars "GET"
  · have hf : reFind r.requestURI = none := h.resolve_left (fun hc => hc hm)
    rw [step_no_match render readDoc st r hm hf]
    exact ⟨rfl, fun p => trivial⟩
  · rw [step_not_get render readDoc st r hm]
    exact ⟨rfl, fun p => observes_of_methodError p⟩

lemma run_nonlatch (render : Config → List Char)
    (readDoc : List Char → Except (List Char) (List Char))
    (st : State) (qs : List Request)
    (h : ∀ q ∈ qs, ¬q.method = chars "GET" ∨ reFind q.requestURI = none) :
    (run render readDoc st qs).1 = st ∧
      ∀ res ∈ (run render readDoc st qs).2, ∀ p, observesPrefix p res := by
  induction qs generalizing st with
  | nil => simp
  | cons q qs ih =>
    obtain ⟨hs, ho⟩ := step_nonlatch render readDoc st q (h q (by simp))
    rw [run_cons, hs]
    obtain ⟨ih1, ih2⟩ := ih st (fun x hx => h x (by simp [hx]))
    exact ⟨ih1, by
      intro res hres p
      rcases List.mem_cons.mp hres with hc | hc
      · exact hc ▸ ho p
      · exact ih2 res hc p⟩

/-! ## The claims -/

/-- C10: a request whose method is not GET never triggers the one-time
prefix latch: the whole dispatcher state — in particular the asset server's
`Prefix` field and the `sync.Once` cell — is unchanged by a non-GET request,
so the prefix is latched only from a GET request. -/
theorem claim10_nonGet_no_latch (render : Config → List Char)
    (readDoc : List Char → Except (List Char) (List Char))
    (st : State) (r : Request) (h : ¬r.method = chars "GET") :
    (step render readDoc st r).1 = st := by
  rw [step_not_get render readDoc st r h]

theorem claim10_witness :
    ¬((chars "POST") = chars "GET") ∧
      (step render0 readDoc0 freshState
        ⟨chars "POST", chars "/api/docs/index.html"⟩).1 = freshState :=
  ⟨by decide,
   claim10_nonGet_no_latch render0 readDoc0 freshState
     ⟨chars "POST", chars "/api/docs/index.html"⟩ (by decide)⟩

/-- C8 (counterexample): the response body of a non-GET request is not the
exact string "Method not allowed": the error writer appends a newline, so
the body is "Method not allowed\n". -/
theorem claim8_counterexample :
    (step render0 readDoc0 freshState
        ⟨chars "POST", chars "/api/docs/index.html"⟩).2 =
      .reply { status := 405, contentType := some textPlain, location := none
               body := chars "Method not allowed" ++ ['\n'] } ∧
      ¬(chars "Method not allowed" ++ ['\n'] = chars "Method not allowed") := by
  exact ⟨by decide, by decide⟩

/-- C8 (amended): every request whose method is not GET gets, on any path
and in any dispatcher state, status 405 with a `text/plain` body consisting
of "Method not allowed" followed by the newline the error writer appends,
and no further processing occurs: the state is returned unchanged. -/
theorem claim8_method_guard (render : Config → List Char)
    (readDoc : List Char → Except (List Char) (List Char))
    (st : State) (r : Request) (h : ¬r.method = chars "GET") :
    step render readDoc st r =
      (st, .reply { status := 405, contentType := some textPlain
                    location := none
                    body := chars "Method not allowed" ++ ['\n'] }) := by
  rw [step_not_get render readDoc st r h]; rfl

theorem claim8_witness :
    ¬((chars "DELETE") = chars "GET") ∧
      step render0 readDoc0 freshState ⟨chars "DELETE", chars "/api/docs/doc.json"⟩ =
        (freshState,
         .reply { status := 405, contentType := some textPlain, location := none
                  body := chars "Method not allowed" ++ ['\n'] }) :=
  ⟨by decide,
   claim8_method_guard render0 readDoc0 freshState
     ⟨chars "DELETE", chars "/api/docs/doc.json"⟩ (by decide)⟩

/-- C3: a GET request whose raw URI contains no slash — here the legal
asterisk-form target `*` — makes the handler index `matches[2]` on the nil
result of `FindStringSubmatch`, so the handler panics instead of returning
a response: the code violates the claim's no-panic guarantee. -/
theorem claim3_panics_on_unmatched_uri :
    (step render0 readDoc0 freshState ⟨chars "GET", chars "*"⟩).2 =
        DispatchResult.panic ∧
      ¬('/' ∈ chars "*") := by
  exact ⟨by decide, by decide⟩

/-- C4 (counterexample): a dispatcher constructed without a supplied webdav
handler starts with a nil asset-handler reference, and the first matching
GET request writes the package default into that Configuration field — so
not every field of the Configuration is unchanged by a request. -/
theorem claim4_counterexample :
    freshState.handler = none ∧
      (step render0 readDoc0 freshState
          ⟨chars "GET", chars "/api/docs/index.html"⟩).1.handler =
        some AssetRef.swaggerFiles ∧
      ¬(some AssetRef.swaggerFiles = freshState.handler) := by
  exact ⟨rfl, by decide, by decide⟩

/-- C4 (amended): the dispatcher never writes any value field of the
Configuration (documentURL, docExpansion, domID, instanceName, scripts,
plugins, uiConfigExtra, the booleans) — unconditionally, for every request
against every state — and once the asset-handler reference is non-nil it
too is never changed; the only Configuration mutation ever is the one-time
assignment of the default asset handler into an initially nil reference. -/
theorem claim4_config_read_only (render : Config → List Char)
    (readDoc : List Char → Except (List Char) (List Char))
    (st : State) (r : Request) :
    (step render readDoc st r).1.config = st.config ∧
      (¬st.handler = none → (step render readDoc st r).1.handler = st.handler) := by
  refine ⟨step_config render readDoc st r, ?_⟩
  intro h
  by_cases hm : r.method = chars "GET"
  · cases hf : reFind r.requestURI with
    | none => rw [step_no_match render readDoc st r hm hf]
    | some pr =>
      rw [step_of_match render readDoc st r pr.1 pr.2 hm (by rw [hf])]
      simp [ensureHandler_of_some st h]
  · rw [step_not_get render readDoc st r hm]

theorem claim4_witness :
    (step render0 readDoc0 (initState (newConfig []) (some AssetRef.supplied) [] [])
        ⟨chars "GET", chars "/api/docs/index.html"⟩).1.config =
      (initState (newConfig []) (some AssetRef.supplied) [] []).config ∧
      (¬(initState (newConfig []) (some AssetRef.supplied) [] []).handler = none →
        (step render0 readDoc0
            (initState (newConfig []) (some AssetRef.supplied) [] [])
            ⟨chars "GET", chars "/api/docs/index.html"⟩).1.handler =
          (initState (newConfig []) (some AssetRef.supplied) [] []).handler) :=
  claim4_config_read_only render0 readDoc0
    (initState (newConfig []) (some AssetRef.supplied) [] [])
    ⟨chars "GET", chars "/api/docs/index.html"⟩

/-- C5: on a GET request resolving to `doc.json`, a successful registry
fetch is answered with exactly the fetched bytes and status 200 (with the
`application/json` header the extension switch pre-set); a failed fetch is
answered with status 500 and the fixed, non-empty status-text body
"Internal Server Error" plus newline — the same body whatever the
underlying error, so the error string is never echoed and no document
bytes are written. -/
theorem claim5_doc_json (render : Config → List Char)
    (readDoc : List Char → Except (List Char) (List Char))
    (st : State) (r : Request) (pre : List Char)
    (hm : r.method = chars "GET")
    (hf : reFind r.requestURI = some (pre, chars "doc.json")) :
    (∀ d, readDoc st.config.InstanceName = Except.ok d →
      (step render readDoc st r).2 =
        .reply { status := 200, contentType := some appJSON, location := none
                 body := d }) ∧
    (∀ e, readDoc st.config.InstanceName = Except.error e →
      (step render readDoc st r).2 =
        .reply { status := 500, contentType := some textPlain, location := none
                 body := chars "Internal Server Error" ++ ['\n'] } ∧
      ¬(chars "Internal Server Error" ++ ['\n'] = ([] : List Char))) := by
  rw [step_of_match render readDoc st r pre (chars "doc.json") hm hf]
  have hinst : (doOnce (ensureHandler st) pre).config = st.config := by simp
  have e1 : ¬(chars "doc.json" = chars "index.html") := by decide
  have hct : contentTypeFor (filepathExt (chars "doc.json")) = some appJSON := by
    decide
  constructor
  · intro d hd
    simp [dispatchOut, e1, hinst, hd, hct]
  · intro e he
    refine ⟨?_, by decide⟩
    simp [dispatchOut, e1, hinst, he, httpError]

theorem claim5_witness :
    ((chars "GET") = chars "GET" ∧
      reFind (chars "/api/docs/doc.json") =
        some (chars "/api/docs/", chars "doc.json")) ∧
      ((∀ d, readDoc0 freshState.config.InstanceName = Except.ok d →
        (step render0 readDoc0 freshState ⟨chars "GET", chars "/api/docs/doc.json"⟩).2 =
          .reply { status := 200, contentType := some appJSON, location := none
                   body := d }) ∧
      (∀ e, readDoc0 freshState.config.InstanceName = Except.error e →
        (step render0 readDoc0 freshState ⟨chars "GET", chars "/api/docs/doc.json"⟩).2 =
          .reply { status := 500, contentType := some textPlain, location := none
                   body := chars "Internal Server Error" ++ ['\n'] } ∧
        ¬(chars "Internal Server Error" ++ ['\n'] = ([] : List Char)))) :=
  ⟨⟨rfl, by decide⟩,
   claim5_doc_json render0 readDoc0 freshState
     ⟨chars "GET", chars "/api/docs/doc.json"⟩ (chars "/api/docs/") rfl (by decide)⟩

/-- Helper for C9: in the `index.html` and `doc.json` branches the response
body depends on the state only through the config value fields. -/
lemma dispatchOut_body_config (render : Config → List Char)
    (readDoc : List Char → Except (List Char) (List Char))
    (s1 s2 : State) (r1 r2 : Request) (path : List Char)
    (hc : s1.config = s2.config)
    (hp : path = chars "index.html" ∨ path = chars "doc.json") :
    bodyOf (dispatchOut render readDoc s1 r1 path) =
      bodyOf (dispatchOut render readDoc s2 r2 path) := by
  have e1 : ¬(chars "doc.json" = chars "index.html") := by decide
  rcases hp with h | h <;> subst h
  · simp [dispatchOut, hc, bodyOf]
  · simp only [dispatchOut, e1, if_false, if_neg e1, hc]
    cases readDoc s2.config.InstanceName <;> simp [bodyOf]

/-- C9: processing the same GET request twice against the same dispatcher,
with the Configuration value fields and the registry unchanged, produces
byte-identical response bodies in the `index.html` and `doc.json`
branches. -/
theorem claim9_idempotent (render : Config → List Char)
    (readDoc : List Char → Except (List Char) (List Char))
    (st : State) (r : Request) (pre path : List Char)
    (hm : r.method = chars "GET")
    (hf : reFind r.requestURI = some (pre, path))
    (hp : path = chars "index.html" ∨ path = chars "doc.json") :
    bodyOf (step render readDoc st r).2 =
      bodyOf (step render readDoc (step render readDoc st r).1 r).2 := by
  rw [step_of_match render readDoc st r pre path hm hf]
  simp only []
  rw [step_of_match render readDoc (doOnce (ensureHandler st) pre) r pre path hm hf]
  exact dispatchOut_body_config render readDoc _ _ r r path (by simp) hp

theorem claim9_witness :
    ((chars "GET") = chars "GET" ∧
      reFind (chars "/api/docs/index.html") =
        some (chars "/api/docs/", chars "index.html") ∧
      ((chars "index.html") = chars "index.html" ∨
        (chars "index.html") = chars "doc.json")) ∧
      bodyOf (step render0 readDoc0 freshState
          ⟨chars "GET", chars "/api/docs/index.html"⟩).2 =
        bodyOf (step render0 readDoc0
          (step render0 readDoc0 freshState
            ⟨chars "GET", chars "/api/docs/index.html"⟩).1
          ⟨chars "GET", chars "/api/docs/index.html"⟩).2 :=
  ⟨⟨rfl, by decide, Or.inl rfl⟩,
   claim9_idempotent render0 readDoc0 freshState
     ⟨chars "GET", chars "/api/docs/index.html"⟩ (chars "/api/docs/")
     (chars "index.html") rfl (by decide) (Or.inl rfl)⟩

/-- C6 (counterexample): on a GET request for `doc.json` whose registry
fetch fails, the final Content-Type of the failure response is
`text/plain; charset=utf-8` — the error writer overrides the
`application/json` header the extension table pre-set, so the pre-set
header does not govern the document-fetch failure response. -/
theorem claim6_counterexample :
    (step render0 readDocErr freshState
        ⟨chars "GET", chars "/api/docs/doc.json"⟩).2 =
      .reply { status := 500, contentType := some textPlain, location := none
               body := chars "Internal Server Error" ++ ['\n'] } ∧
      ¬(some textPlain = contentTypeFor (filepathExt (chars "doc.json"))) := by
  exact ⟨by decide, by decide⟩

/-- C6 (amended): the Content-Type header is pre-set from the resolved
relative path's extension by the fixed five-entry table (any other or
absent extension sets none), and that header reaches the delegation, the
entry-page reply and the successful document fetch unchanged; the
document-fetch *failure* response instead carries `text/plain;
charset=utf-8` written by the error writer, and the empty-path redirect
carries `text/html; charset=utf-8` set by the redirect writer (the empty
path has no extension, so no header was pre-set there). -/
theorem claim6_content_type (render : Config → List Char)
    (readDoc : List Char → Except (List Char) (List Char))
    (st : State) (r : Request) (pre path : List Char)
    (hm : r.method = chars "GET")
    (hf : reFind r.requestURI = some (pre, path)) :
    (contentTypeFor (chars ".html") = some textHTML ∧
     contentTypeFor (chars ".css") = some textCSS ∧
     contentTypeFor (chars ".js") = some appJS ∧
     contentTypeFor (chars ".png") = some imagePNG ∧
     contentTypeFor (chars ".json") = some appJSON ∧
     ∀ e, ¬e ∈ [chars ".html", chars ".css", chars ".js", chars ".png",
         chars ".json"] → contentTypeFor e = none) ∧
    resultCT (step render readDoc st r).2 =
      some (if path = chars "index.html" then contentTypeFor (filepathExt path)
        else if path = chars "doc.json" then
          match readDoc st.config.InstanceName with
          | Except.error _ => some textPlain
          | Except.ok _ => contentTypeFor (filepathExt path)
        else if path = [] then some textHTML
        else contentTypeFor (filepathExt path)) := by
  constructor
  · refine ⟨by decide, by decide, by decide, by decide, by decide, ?_⟩
    intro e he
    simp only [List.mem_cons, List.mem_singleton, not_or] at he
    obtain ⟨n1, n2, n3, n4, n5⟩ := he
    simp [contentTypeFor, n1, n2, n3, n4, n5]
  · rw [step_of_match render readDoc st r pre path hm hf]
    have hinst : (doOnce (ensureHandler st) pre).config = st.config := by simp
    have e1 : ¬(chars "doc.json" = chars "index.html") := by decide
    have e2 : ¬(chars "index.html" = ([] : List Char)) := by decide
    have e3 : ¬(chars "doc.json" = ([] : List Char)) := by decide
    have hemptyct : contentTypeFor (filepathExt ([] : List Char)) = none := by decide
    by_cases h1 : path = chars "index.html"
    · simp [dispatchOut, h1, resultCT]
    by_cases h2 : path = chars "doc.json"
    · cases hd : readDoc st.config.InstanceName with
      | error e => simp [dispatchOut, h1, h2, hinst, hd, resultCT, httpError, e1]
      | ok d => simp [dispatchOut, h1, h2, hinst, hd, resultCT, e1]
    by_cases h3 : path = []
    · simp [dispatchOut, h1, h2, h3, resultCT, httpRedirect, hm, hemptyct, e2, e3]
    · simp [dispatchOut, h1, h2, h3, resultCT]

theorem claim6_witness :
    ((chars "GET") = chars "GET" ∧
      reFind (chars "/api/docs/foo.css") =
        some (chars "/api/docs/", chars "foo.css")) ∧
      ((contentTypeFor (chars ".html") = some textHTML ∧
        contentTypeFor (chars ".css") = some textCSS ∧
        contentTypeFor (chars ".js") = some appJS ∧
        contentTypeFor (chars ".png") = some imagePNG ∧
        contentTypeFor (chars ".json") = some appJSON ∧
        ∀ e, ¬e ∈ [chars ".html", chars ".css", chars ".js", chars ".png",
            chars ".json"] → contentTypeFor e = none) ∧
      resultCT (step render0 readDoc0 freshState
          ⟨chars "GET", chars "/api/docs/foo.css"⟩).2 =
        some (if (chars "foo.css") = chars "index.html" then
            contentTypeFor (filepathExt (chars "foo.css"))
          else if (chars "foo.css") = chars "doc.json" then
            match readDoc0 freshState.config.InstanceName with
            | Except.error _ => some textPlain
            | Except.ok _ => contentTypeFor (filepathExt (chars "foo.css"))
          else if (chars "foo.css") = ([] : List Char) then some textHTML
          else contentTypeFor (filepathExt (chars "foo.css")))) :=
  ⟨⟨rfl, by decide⟩,
   claim6_content_type render0 readDoc0 freshState
     ⟨chars "GET", chars "/api/docs/foo.css"⟩ (chars "/api/docs/")
     (chars "foo.css") rfl (by decide)⟩

/-- The latched prefix read back after the handler-assignment and the
once-latch does not depend on the config value fields. -/
lemma currentPrefix_doOnce_setConfig (st : State) (c : Config) (p : List Char) :
    currentPrefix (doOnce (ensureHandler { st with config := c }) p) =
      currentPrefix (doOnce (ensureHandler st) p) := by
  obtain ⟨cfg, h, sp, fp, od⟩ := st
  rcases h with _ | a
  · cases od <;> simp [ensureHandler, doOnce, setPrefix, currentPrefix]
  · cases a <;> cases od <;> simp [ensureHandler, doOnce, setPrefix, currentPrefix]

/-- Helper for C2: scanning past characters that are not slashes moves them
into the remainder without finding a split. -/
lemma auxFind_skip (u v t : List Char) (h : ∀ c ∈ u, ¬c = '/') :
    auxFind (u ++ v) t = auxFind v (u.reverse ++ t) := by
  induction u generalizing t with
  | nil => simp
  | cons c u ih =>
    have hc : ¬c = '/' := h c (by simp)
    have hstep : auxFind ((c :: u) ++ v) t = auxFind (u ++ v) (c :: t) := by
      simp [auxFind, hc]
    rw [hstep, ih (c :: t) (fun x hx => h x (by simp [hx]))]
    simp

/-- C2 (counterexample): the raw URI `/api/docs/index.html?x=1` resolves to
the relative path `index.html?x=1`: the query string is not stripped, so
the resolved path is not `index.html` as the claim states. -/
theorem claim2_counterexample :
    reFind (chars "/api/docs/index.html?x=1") =
      some (chars "/api/docs/", chars "index.html?x=1") ∧
      ¬((chars "index.html?x=1") = chars "index.html") := by
  exact ⟨by decide, by decide⟩

/-- C2 (amended): for a URI consisting of a newline-free prefix, a final
slash and a final segment that contains no slash and does not begin with a
question mark (with a newline-free tail), the resolver yields the prefix up
to and including the final slash together with the *entire* final segment —
any query-string suffix included, not stripped. -/
theorem claim2_path_resolution (pre seg : List Char)
    (hseg : ∀ c ∈ seg, ¬c = '/')
    (hpre : ∀ c ∈ pre, ¬c = '\n')
    (hq : ¬seg.head? = some '?')
    (ht : ∀ c ∈ seg.tail, ¬c = '\n') :
    reFind (pre ++ '/' :: seg) = some (pre ++ ['/'], seg) := by
  unfold reFind
  have hrev : (pre ++ '/' :: seg).reverse = seg.reverse ++ '/' :: pre.reverse := by
    simp [List.reverse_append]
  rw [hrev,
    auxFind_skip seg.reverse ('/' :: pre.reverse) []
      (fun c hc => hseg c (List.mem_reverse.mp hc))]
  have hsr : seg.reverse.reverse ++ ([] : List Char) = seg := by simp
  rw [hsr]
  have hnl : noNL pre.reverse = true := by
    simp only [noNL, List.all_eq_true]
    intro c hc
    simpa using hpre c (List.mem_reverse.mp hc)
  have hrv : restValid seg = true := by
    cases hs : seg with
    | nil => rfl
    | cons h t =>
      have hh : ¬h = '?' := by rw [hs] at hq; simpa using hq
      have htt : noNL t = true := by
        simp only [noNL, List.all_eq_true]
        intro c hc
        have := ht c (by rw [hs]; exact hc)
        simpa using this
      simp [restValid, hh, htt]
  have hg2 : group2 seg = seg := by
    cases hs : seg with
    | nil => rfl
    | cons h t =>
      have hh : ¬h = '?' := by rw [hs] at hq; simpa using hq
      simp [group2, hh]
  simp [auxFind, hnl, hrv, hg2]

theorem claim2_witness :
    ((∀ c ∈ chars "index.html?x=1", ¬c = '/') ∧
      (∀ c ∈ chars "/api/docs", ¬c = '\n') ∧
      ¬(chars "index.html?x=1").head? = some '?' ∧
      (∀ c ∈ (chars "index.html?x=1").tail, ¬c = '\n')) ∧
      reFind (chars "/api/docs" ++ '/' :: chars "index.html?x=1") =
        some (chars "/api/docs" ++ ['/'], chars "index.html?x=1") :=
  ⟨⟨by decide, by decide, by decide, by decide⟩,
   claim2_path_resolution (chars "/api/docs") (chars "index.html?x=1")
     (by decide) (by decide) (by decide) (by decide)⟩

end HttpSwagger
